import Mathlib

set_option maxHeartbeats 1000000

/-!
Verification development for `client/transaction-pool/src/fork_aware_txpool/view.rs`:
the per-block transaction-pool `View` and its background-revalidation protocol.

The Rust code is embedded shallowly: async control flow becomes explicit state
passing, channels become their observable content (the pending message of a
capacity-1 channel, the liveness of the peer endpoint), and the moment at which a
cancellation signal wins the select race becomes an explicit parameter.  The
external Transaction Store and Chain Validation Oracle (crate::graph, not part of
the sources under verification) are modelled from the spec where their behaviour
is needed; such definitions carry a `Modelled from the spec:` doc comment.
-/

deriving instance DecidableEq for Except

namespace ViewSpec

/-- `sp_blockchain::HashAndNumber`: the chain position a view is bound to. -/
structure HashAndNumber where
  hash : Nat
  number : Nat
deriving DecidableEq

/-- An opaque extrinsic body (`ExtrinsicFor<ChainApi>`). -/
abbrev Extrinsic := Nat

/-- `sc_transaction_pool_api::TransactionSource`, restricted to the variants the
view code can observe. -/
inductive TransactionSource where
  | Local
  | InBlock
  | External
deriving DecidableEq

/-- `graph::base_pool::TimedTransactionSource`: a source plus an optional
timestamp (the timestamp's clock value is irrelevant here, only its presence). -/
structure TimedTransactionSource where
  source : TransactionSource
  timestamp : Option Unit
deriving DecidableEq

/-- `TimedTransactionSource::new_local(with_timestamp)`. -/
def TimedTransactionSource.new_local (withTimestamp : Bool) : TimedTransactionSource :=
  ⟨.Local, if withTimestamp then some () else none⟩

/-- The conversion applied by `tx.source.clone().into()` in `revalidate`. -/
def TimedTransactionSource.toSource (s : TimedTransactionSource) : TransactionSource :=
  s.source

/-- `sp_runtime::transaction_validity::TransactionValidityError`. -/
inductive TransactionValidityError where
  | invalid (code : Nat)
  | unknown (code : Nat)
deriving DecidableEq

/-- Opaque `ValidTransaction` verdict produced by the oracle. -/
abbrev ValidityVerdict := Nat

/-- Opaque chain-api error (`ChainApi::Error`). -/
abbrev ApiError := Nat

/-- Outcome of one oracle validation call: the outer `Except` is failure of the
call itself, the inner one is the validity verdict or the invalidity reason. -/
abbrev ValidationOutcome := Except ApiError (Except TransactionValidityError ValidityVerdict)

/-- `graph::ValidatedTransaction::Valid`, as built by `ValidatedTransaction::valid_at`. -/
structure ValidatedTransaction where
  at_ : Nat
  hash : Nat
  source : TimedTransactionSource
  data : Extrinsic
  bytes : Nat
  validity : ValidityVerdict
deriving DecidableEq

/-- `ValidatedTransaction::valid_at(at, hash, source, data, bytes, validity)`. -/
def ValidatedTransaction.valid_at (at_ : Nat) (hash : Nat) (source : TimedTransactionSource)
    (data : Extrinsic) (bytes : Nat) (validity : ValidityVerdict) : ValidatedTransaction :=
  ⟨at_, hash, source, data, bytes, validity⟩

/-- A ready transaction as yielded by `validated_pool.ready()`: the fields the
revalidation loop reads (`tx.hash`, `tx.source`, `tx.data`). -/
structure ReadyTx where
  hash : Nat
  source : TimedTransactionSource
  data : Extrinsic
deriving DecidableEq

/-- Keys of an association list of validated transactions. -/
def keysOf (l : List (Nat × ValidatedTransaction)) : List Nat :=
  l.map Prod.fst

/-- First-match lookup in an association list (the observable behaviour of the
store's and HashMap's keyed access). -/
def lookupA : List (Nat × ValidatedTransaction) → Nat → Option ValidatedTransaction
  | [], _ => none
  | p :: t, h => if p.1 = h then some p.2 else lookupA t h

/-- Keyed insert: replace the existing entry for the key, else append
(the observable behaviour of `HashMap::insert` and keyed store insertion). -/
def insertA (l : List (Nat × ValidatedTransaction)) (k : Nat) (v : ValidatedTransaction) :
    List (Nat × ValidatedTransaction) :=
  if k ∈ keysOf l then l.map (fun p => (p.1, if p.1 = k then v else p.2)) else l ++ [(k, v)]

/-- Modelled from the spec: the external Transaction Store ("Pool", spec §6,
`crate::graph`, not under the verified sources): validated transactions keyed by
hash, banned markings, and the snapshot of the ready set that `ready()` yields. -/
structure Store where
  entries : List (Nat × ValidatedTransaction)
  banned : List Nat
  ready : List ReadyTx
deriving DecidableEq

/-- Modelled from the spec: `remove_invalid` / `remove_by_hash` removes every
given hash from the store. -/
def Store.remove_invalid (s : Store) (hashes : List Nat) : Store :=
  { s with entries := s.entries.filter (fun p => decide (p.1 ∉ hashes)) }

/-- Modelled from the spec: `resubmit` inserts already-validated entries into the
store, bypassing re-validation. -/
def Store.resubmit (s : Store) (m : List (Nat × ValidatedTransaction)) : Store :=
  { s with entries := m.foldl (fun acc kv => insertA acc kv.1 kv.2) s.entries }

/-- Modelled from the spec: `ValidatedPool::check_is_known(tx_hash, ignore_banned)`
(spec §6 `is_known`): reports an error iff the hash is banned (unless banned
markings are ignored) or already imported. -/
def Store.check_is_known (s : Store) (txHash : Nat) (ignore_banned : Bool) : Except Nat Unit :=
  if !ignore_banned && s.banned.contains txHash then .error 0
  else if txHash ∈ keysOf s.entries then .error 1
  else .ok ()

/-- `RevalidationResult`: the diff a revalidation run reports back to the view. -/
structure RevalidationResult where
  revalidated : List (Nat × ValidatedTransaction)
  invalid_hashes : List Nat
deriving DecidableEq

/-- `FinishRevalidationLocalChannels`, the view-side channel endpoints.
`finish_revalidation_request_tx` is `some b` when the sender is still registered,
with `b` recording whether the worker's receiving end is still open (so a
cancellation send succeeds); `none` models a removed sender.
`revalidation_result_rx` is the single pending message of the capacity-1 result
channel, or `none` when the worker terminated without sending. -/
structure FinishRevalidationLocalChannels where
  finish_revalidation_request_tx : Option Bool
  revalidation_result_rx : Option RevalidationResult
deriving DecidableEq

/-- `View` state: the owned store snapshot, the chain position, the optional
channel pair of the outstanding revalidation, and the shared metrics handle
(rendered as an opaque handle identifier). -/
structure View where
  pool : Store
  at_ : HashAndNumber
  revalidation_worker_channels : Option FinishRevalidationLocalChannels
  metrics : Nat
deriving DecidableEq

/-- `View::finish_revalidation`: take the registered channels (leaving `None`);
if none were registered, return immediately.  Otherwise send the best-effort
cancellation signal (its failure is only logged), await the single result
message, and if one arrives apply it: remove the invalid hashes, then, when the
revalidated map is non-empty, resubmit the revalidated transactions. -/
def View.finish_revalidation (v : View) : View :=
  match v.revalidation_worker_channels with
  | none => v
  | some ch =>
    let v' : View := { v with revalidation_worker_channels := none }
    match ch.revalidation_result_rx with
    | none => v'
    | some r =>
      let s := v'.pool.remove_invalid r.invalid_hashes
      let s := if 0 < r.revalidated.length then s.resubmit r.revalidated else s
      { v' with pool := s }

/-- The chain api surface the view consumes (`graph::ChainApi`, spec §6):
hashing, the validation oracle (suspending and blocking forms), and block-id
resolution. -/
structure ChainApi where
  hash_and_length : Extrinsic → Nat × Nat
  validate_transaction : Nat → TransactionSource → Extrinsic → ValidationOutcome
  validate_transaction_blocking : Nat → TransactionSource → Extrinsic → ValidationOutcome
  block_id_to_number : Nat → Except ApiError (Option Nat)

/-- `sc_transaction_pool_api::error::Error`, restricted to the variants the view
produces, together with a propagated chain-api error. -/
inductive TxPoolError where
  | invalidTransaction (code : Nat)
  | unknownTransaction (code : Nat)
  | invalidBlockId (hash : Nat)
  | api (e : ApiError)
deriving DecidableEq

/-- Whether an error is of the `InvalidBlockId` class. -/
def TxPoolError.isInvalidBlockId : TxPoolError → Bool
  | .invalidBlockId _ => true
  | _ => false

/-- A single submission result (`Result<ValidatedPoolSubmitOutcome, Error>`,
the outcome left opaque). -/
abbrev SubmitResult := Except TxPoolError Nat

/-- The store's own submission path `graph::Pool::submit_at` (external to the
verified sources), taken as a parameter: the chain position and the batch in
order, producing the result sequence. -/
abbrev SubmitAtFn := HashAndNumber → List (TimedTransactionSource × Extrinsic) → List SubmitResult

/-- Modelled from the spec: `insert_validated` / `ValidatedPool::submit` on a
single already-validated record: key the record by its hash and report the
insertion outcome (an opaque success token). -/
def Store.submitValidated (s : Store) (vt : ValidatedTransaction) :
    Store × SubmitResult :=
  ({ s with entries := insertA s.entries vt.hash vt }, .ok vt.hash)

/-- `View::submit_many`: when TRACE logging is enabled, first collect the batch
and compute every transaction hash for the log line, then submit the collected
batch at `at`; otherwise submit the batch at `at` directly. -/
def View.submit_many (submitAt : SubmitAtFn) (traceEnabled : Bool) (api : ChainApi)
    (v : View) (xts : List (TimedTransactionSource × Extrinsic)) : List SubmitResult :=
  if traceEnabled then
    let collected := xts
    let _txHashes := collected.map (fun p => (api.hash_and_length p.2).1)
    submitAt v.at_ collected
  else
    submitAt v.at_ xts

/-- `View::submit_one`: submit the single-element batch through `submit_many`,
then `.pop()` the result vector (take its last element); `none` renders the
`.expect(..)` panic on an empty result vector. -/
def View.submit_one (submitAt : SubmitAtFn) (traceEnabled : Bool) (api : ChainApi)
    (v : View) (source : TimedTransactionSource) (xt : Extrinsic) : Option SubmitResult :=
  (View.submit_many submitAt traceEnabled api v [(source, xt)]).getLast?

/-- `View::submit_local`: hash the extrinsic, validate it synchronously against
`at` with the `Local` source, map reported invalidity to the typed pool error,
resolve the block hash to a number (failing with `InvalidBlockId` when
unresolvable), build the validated record stamped with that number and a
timestamped local source, and submit it into the store.  Returns the result
paired with the store the call leaves behind. -/
def View.submit_local (api : ChainApi) (v : View) (xt : Extrinsic) : SubmitResult × Store :=
  let hl := api.hash_and_length xt
  match api.validate_transaction_blocking v.at_.hash .Local xt with
  | .error e => (.error (.api e), v.pool)
  | .ok (.error (.invalid i)) => (.error (.invalidTransaction i), v.pool)
  | .ok (.error (.unknown u)) => (.error (.unknownTransaction u), v.pool)
  | .ok (.ok validity) =>
    match api.block_id_to_number v.at_.hash with
    | .error e => (.error (.api e), v.pool)
    | .ok none => (.error (.invalidBlockId v.at_.hash), v.pool)
    | .ok (some blockNumber) =>
      let validated := ValidatedTransaction.valid_at blockNumber hl.1
        (TimedTransactionSource.new_local true) xt hl.2 validity
      let sr := Store.submitValidated v.pool validated
      (sr.2, sr.1)

/-- `View::is_imported`: query `check_is_known` with the constant
`IGNORE_BANNED` flag the source passes, and report whether it returned an error. -/
def View.is_imported (v : View) (txHash : Nat) : Bool :=
  let IGNORE_BANNED : Bool := false
  match v.pool.check_is_known txHash IGNORE_BANNED with
  | .error _ => true
  | .ok _ => false

/-- The hash-known predicate the spec states for `is_imported`: the store
currently holds an entry for the hash, banned markings ignored. -/
def Store.knownIgnoringBanned (s : Store) (txHash : Nat) : Bool :=
  decide (txHash ∈ keysOf s.entries)

/-- `FinishRevalidationWorkerChannels`, the worker-side endpoints, rendered by
their observable content.  `finish_revalidation_request_rx` is the schedule of
the cancellation signal: `some k` means the signal is available and wins the
select race before the `k`-th transaction of the batch is validated (so a value
`≥` the batch length means the batch runs to exhaustion first); `none` means no
signal is ever sent.  `revalidation_result_tx` records whether the result
channel's receiving end is still open, i.e. whether the final send succeeds. -/
structure FinishRevalidationWorkerChannels where
  finish_revalidation_request_rx : Option Nat
  revalidation_result_tx : Bool
deriving DecidableEq

/-- What a `revalidate` run observably does: the messages pushed onto the result
channel, whether the send succeeded, and the view state it leaves behind
(`remove_sender` mutates the view's registered channels when the batch is
exhausted). -/
structure RevalidateOutput where
  sent : List RevalidationResult
  sendOk : Bool
  view : View
deriving DecidableEq

/-- One step of the classification loop of `revalidate`, in the source's match
order: oracle-reported invalidity pushes the hash onto `invalid_hashes`; a
confirmed verdict inserts a record built by `valid_at` from this view's block
number, the transaction's original source and body, its encoded length and the
fresh verdict; unknown validity and an oracle-call error both push the hash onto
`invalid_hashes`. -/
def classifyStep (api : ChainApi) (atNumber : Nat)
    (acc : List Nat × List (Nat × ValidatedTransaction))
    (e : ValidationOutcome × Nat × ReadyTx) :
    List Nat × List (Nat × ValidatedTransaction) :=
  match e.1 with
  | .ok (.error (.invalid _)) => (acc.1 ++ [e.2.1], acc.2)
  | .ok (.ok validity) =>
    (acc.1, insertA acc.2 e.2.1
      (ValidatedTransaction.valid_at atNumber e.2.1 e.2.2.source e.2.2.data
        (api.hash_and_length e.2.2.data).2 validity))
  | .ok (.error (.unknown _)) => (acc.1 ++ [e.2.1], acc.2)
  | .error _ => (acc.1 ++ [e.2.1], acc.2)

/-- The classification loop of `revalidate` over the recorded
`validation_results`, accumulating `invalid_hashes` and the `revalidated` map. -/
def classifyResults (api : ChainApi) (atNumber : Nat)
    (validation_results : List (ValidationOutcome × Nat × ReadyTx)) :
    List Nat × List (Nat × ValidatedTransaction) :=
  validation_results.foldl (classifyStep api atNumber) ([], [])

/-- `FinishRevalidationLocalChannels::remove_sender`, applied through the view's
channel slot as in the batch-exhausted branch of `revalidate`. -/
def View.remove_sender (v : View) : View :=
  { v with revalidation_worker_channels :=
      (Option.map (fun ch => { ch with finish_revalidation_request_tx := none })
        v.revalidation_worker_channels) }

/-- The `validation_results` a `revalidate` run records before the loop ends:
the prefix of the ready-set snapshot reached before the cancellation signal won
the race (the whole snapshot when no signal arrives in time), each transaction
paired with its oracle outcome under this view's block hash. -/
def recordedResults (api : ChainApi) (v : View)
    (ch : FinishRevalidationWorkerChannels) :
    List (ValidationOutcome × Nat × ReadyTx) :=
  let batch := v.pool.ready
  let takeN := match ch.finish_revalidation_request_rx with
    | none => batch.length
    | some k => min k batch.length
  (batch.take takeN).map
    (fun tx => (api.validate_transaction v.at_.hash tx.source.toSource tx.data, tx.hash, tx))

/-- `View::revalidate`: snapshot the ready set, validate transactions in order
until either the cancellation signal wins the race (discarding the rest of the
batch) or the batch is exhausted (in which case the view's local
cancellation-sender reference is removed), classify every recorded outcome, and
send the single accumulated `RevalidationResult`; a failed send is only logged.
The function is total, so the worker terminates in every case. -/
def View.revalidate (api : ChainApi) (v : View)
    (ch : FinishRevalidationWorkerChannels) : RevalidateOutput :=
  let batch := v.pool.ready
  let exhausted : Bool := match ch.finish_revalidation_request_rx with
    | none => true
    | some k => decide (batch.length ≤ k)
  let validation_results := recordedResults api v ch
  let v' := if exhausted then v.remove_sender else v
  let acc := classifyResults api v.at_.number validation_results
  { sent := [{ revalidated := acc.2, invalid_hashes := acc.1 }],
    sendOk := ch.revalidation_result_tx,
    view := v' }

/-- The empty store. -/
def emptyStore : Store := ⟨[], [], []⟩

/-- Read a pool slot of the heap of stores. -/
def heapGet (heap : List Store) (i : Nat) : Store :=
  heap.getD i emptyStore

/-- Modelled from the spec: `graph::Pool::deep_clone` (external to the verified
sources) copies the store into a fresh, independent slot of the heap and returns
the new slot's reference. -/
def heapDeepClone (heap : List Store) (i : Nat) : List Store × Nat :=
  (heap ++ [heapGet heap i], heap.length)

/-- Mutate the store held in one slot of the heap. -/
def heapUpdate (heap : List Store) (i : Nat) (f : Store → Store) : List Store :=
  heap.set i (f (heapGet heap i))

/-- `View`, with the owned pool and the shared metrics sink held by reference
into a heap, rendering Rust ownership for the cloning claim. -/
structure ViewRef where
  poolRef : Nat
  at_ : HashAndNumber
  revalidation_worker_channels : Option FinishRevalidationLocalChannels
  metricsRef : Nat
deriving DecidableEq

/-- `View::new_from_other`: the clone is bound to the new chain position, its
pool is a deep clone of the original's, its revalidation channels start absent,
and its metrics handle is the very same reference as the original's. -/
def ViewRef.new_from_other (heap : List Store) (v : ViewRef) (at' : HashAndNumber) :
    List Store × ViewRef :=
  let hc := heapDeepClone heap v.poolRef
  (hc.1,
   { at_ := at',
     poolRef := hc.2,
     revalidation_worker_channels := none,
     metricsRef := v.metricsRef })

/-! ### Claim-statement predicates and concrete fixtures -/

/-- Selector for the hashes the classification loop marks invalid: every outcome
except a confirmed verdict. -/
def invalidSel (e : ValidationOutcome × Nat × ReadyTx) : Option Nat :=
  match e.1 with
  | .ok (.ok _) => none
  | _ => some e.2.1

/-- Selector for the re-validated entries the classification loop inserts. -/
def okEntry (api : ChainApi) (atNumber : Nat) (e : ValidationOutcome × Nat × ReadyTx) :
    Option (Nat × ValidatedTransaction) :=
  match e.1 with
  | .ok (.ok validity) => some (e.2.1,
      ValidatedTransaction.valid_at atNumber e.2.1 e.2.2.source e.2.2.data
        (api.hash_and_length e.2.2.data).2 validity)
  | _ => none

/-- Selector for the keys of the re-validated entries. -/
def okKeySel (e : ValidationOutcome × Nat × ReadyTx) : Option Nat :=
  match e.1 with
  | .ok (.ok _) => some e.2.1
  | _ => none

/-- A trivial oracle used for concrete evaluations. -/
def apiW : ChainApi :=
  { hash_and_length := fun x => (x, 1)
    validate_transaction := fun _ _ _ => .ok (.ok 0)
    validate_transaction_blocking := fun _ _ _ => .ok (.ok 0)
    block_id_to_number := fun _ => .ok (some 0) }

/-- A concrete network transaction source. -/
def srcW : TimedTransactionSource := ⟨.External, none⟩

/-- A concrete idle view over the empty store. -/
def viewW : View := ⟨emptyStore, ⟨100, 5⟩, none, 0⟩

/-- A store submission path producing exactly one result per input. -/
def submitAtOne : SubmitAtFn := fun _ xs => xs.map (fun _ => .ok 7)

/-- A store submission path producing two results, violating its one-result-per-
input contract. -/
def submitAtTwo : SubmitAtFn := fun _ _ => [.ok 10, .ok 20]

/-- The store of the C7 failing input: hash 7 is banned but not imported. -/
def storeC7 : Store := ⟨[], [7], []⟩

/-- The view of the C7 failing input. -/
def viewC7 : View := ⟨storeC7, ⟨100, 5⟩, none, 0⟩

/-- An oracle whose validation call itself fails and whose block resolution
reports the hash unresolvable. -/
def apiC6 : ChainApi :=
  { hash_and_length := fun x => (x, 1)
    validate_transaction := fun _ _ _ => .ok (.ok 0)
    validate_transaction_blocking := fun _ _ _ => .error 5
    block_id_to_number := fun _ => .ok none }

/-- An oracle confirming validity while the block hash is unresolvable. -/
def apiC6w : ChainApi :=
  { hash_and_length := fun x => (x, 1)
    validate_transaction := fun _ _ _ => .ok (.ok 0)
    validate_transaction_blocking := fun _ _ _ => .ok (.ok 3)
    block_id_to_number := fun _ => .ok none }

/-- The full conclusion of the cloning claim: the clone is bound to the new
position, starts Idle, shares the metrics handle, and owns a fresh store slot
with the original's content such that mutating either slot leaves the other's
content untouched. -/
def cloneSpecHolds (heap : List Store) (v : ViewRef) (a : HashAndNumber) : Prop :=
  ((ViewRef.new_from_other heap v a).2).at_ = a ∧
  ((ViewRef.new_from_other heap v a).2).revalidation_worker_channels = none ∧
  ((ViewRef.new_from_other heap v a).2).metricsRef = v.metricsRef ∧
  ((ViewRef.new_from_other heap v a).2).poolRef ≠ v.poolRef ∧
  heapGet (ViewRef.new_from_other heap v a).1 ((ViewRef.new_from_other heap v a).2).poolRef =
    heapGet heap v.poolRef ∧
  (∀ f, heapGet (heapUpdate (ViewRef.new_from_other heap v a).1
      ((ViewRef.new_from_other heap v a).2).poolRef f) v.poolRef = heapGet heap v.poolRef) ∧
  (∀ f, heapGet (heapUpdate (ViewRef.new_from_other heap v a).1 v.poolRef f)
      ((ViewRef.new_from_other heap v a).2).poolRef = heapGet heap v.poolRef)

/-- The concrete view handle for the C8 witness. -/
def viewR8 : ViewRef := ⟨0, ⟨1, 1⟩, none, 5⟩

/-- The full conclusion of the result-application claim: when the run sent no
result, `finish_revalidation` only clears the channel slot and leaves the store
unchanged; when a result was received it is applied — invalid hashes are removed
(any hash not also re-validated is absent afterwards) and every re-validated
transaction is present afterwards, keyed to exactly the already-validated record
the worker produced (no re-validation takes place). -/
def C1Applied (v : View) (ch : FinishRevalidationLocalChannels) : Prop :=
  (ch.revalidation_result_rx = none →
    v.finish_revalidation = { v with revalidation_worker_channels := none }) ∧
  (∀ r, ch.revalidation_result_rx = some r →
    (v.finish_revalidation).pool =
      (if 0 < r.revalidated.length
        then (v.pool.remove_invalid r.invalid_hashes).resubmit r.revalidated
        else v.pool.remove_invalid r.invalid_hashes) ∧
    (∀ h ∈ r.invalid_hashes, h ∉ keysOf r.revalidated →
      h ∉ keysOf (v.finish_revalidation).pool.entries) ∧
    (∀ kv ∈ r.revalidated, kv.1 ∈ keysOf (v.finish_revalidation).pool.entries) ∧
    ((keysOf r.revalidated).Nodup → ∀ kv ∈ r.revalidated,
      lookupA (v.finish_revalidation).pool.entries kv.1 = some kv.2))

/-- A re-validated record for the C1 witness. -/
def vtW : ValidatedTransaction := ⟨5, 1, srcW, 11, 1, 0⟩

/-- A stale record the C1 witness removes. -/
def vtStale : ValidatedTransaction := ⟨4, 2, srcW, 12, 1, 0⟩

/-- The revalidation result of the C1 witness. -/
def rW : RevalidationResult := ⟨[(1, vtW)], [2]⟩

/-- The view-side channels of the C1 witness, holding a pending result. -/
def chW : FinishRevalidationLocalChannels := ⟨some true, some rW⟩

/-- The view of the C1 witness. -/
def viewC1 : View := ⟨⟨[(2, vtStale)], [], []⟩, ⟨100, 5⟩, some chW, 0⟩

/-- The per-outcome classification the claim states, relative to the emitted
result `r`: an outcome whose oracle call confirmed validity is absent from
`invalid_hashes` and maps in `revalidated` to exactly the `valid_at` record
stamped with this view's block number, the transaction's original source and
body and the fresh verdict; every other outcome (reported invalid, validity
unknown, or oracle-call error) has its hash in `invalid_hashes` and not among
the `revalidated` keys — each recorded outcome lands in exactly one
collection. -/
def C4Prop (api : ChainApi) (v : View) (e : ValidationOutcome × Nat × ReadyTx)
    (r : RevalidationResult) : Prop :=
  match e.1 with
  | .ok (.ok vv) =>
      e.2.1 ∉ r.invalid_hashes ∧
      lookupA r.revalidated e.2.1 =
        some (ValidatedTransaction.valid_at v.at_.number e.2.1 e.2.2.source e.2.2.data
          (api.hash_and_length e.2.2.data).2 vv)
  | _ => e.2.1 ∈ r.invalid_hashes ∧ e.2.1 ∉ keysOf r.revalidated

/-- The view of the C4 and C9 witnesses: three ready transactions. -/
def viewC4 : View := ⟨⟨[], [], [⟨1, srcW, 11⟩, ⟨2, srcW, 12⟩]⟩, ⟨100, 5⟩, none, 0⟩

/-- An oracle confirming only the transaction with body 11. -/
def apiC4 : ChainApi :=
  { hash_and_length := fun x => (x, 1)
    validate_transaction := fun _ _ x =>
      if x = 11 then .ok (.ok 5) else .ok (.error (.invalid 3))
    validate_transaction_blocking := fun _ _ _ => .ok (.ok 0)
    block_id_to_number := fun _ => .ok (some 5) }

/-- Worker channels with no cancellation signal, open receiver. -/
def chC4 : FinishRevalidationWorkerChannels := ⟨none, true⟩

/-- The confirmed outcome entry of the C4 witness. -/
def eC4 : ValidationOutcome × Nat × ReadyTx := (.ok (.ok 5), 1, ⟨1, srcW, 11⟩)

/-- The result the C4 witness run emits. -/
def rC4 : RevalidationResult :=
  ⟨[(1, ValidatedTransaction.valid_at 5 1 srcW 11 1 5)], [2]⟩

/-- The conclusion of the mid-batch cancellation claim: the run cancelled before
the `k`-th transaction still emits one result that classifies every transaction
validated before the signal (the first `k`), classifies none of the discarded
remainder, and `finish_revalidation` applies this partial result to the store —
the store is not left unchanged merely because the run was cancelled. -/
def C9Prop (api : ChainApi) (v : View) (k : Nat) (b : Bool) : Prop :=
  ∃ r, (View.revalidate api v ⟨some k, b⟩).sent = [r] ∧
    (∀ tx ∈ v.pool.ready.take k,
      tx.hash ∈ r.invalid_hashes ∨ tx.hash ∈ keysOf r.revalidated) ∧
    (∀ tx ∈ v.pool.ready.drop k,
      tx.hash ∉ r.invalid_hashes ∧ tx.hash ∉ keysOf r.revalidated) ∧
    (View.finish_revalidation
        { v with revalidation_worker_channels := some ⟨none, some r⟩ }).pool =
      (if 0 < r.revalidated.length
        then (v.pool.remove_invalid r.invalid_hashes).resubmit r.revalidated
        else v.pool.remove_invalid r.invalid_hashes)

/-- The view of the C9 witness: three ready transactions, cancellation after
two. -/
def viewC9 : View :=
  ⟨⟨[], [], [⟨1, srcW, 11⟩, ⟨2, srcW, 12⟩, ⟨3, srcW, 13⟩]⟩, ⟨100, 5⟩, none, 0⟩

/-! ### Association-list lemmas -/

theorem keysOf_replace_map (l : List (Nat × ValidatedTransaction)) (k : Nat)
    (v : ValidatedTransaction) :
    keysOf (l.map (fun p => (p.1, if p.1 = k then v else p.2))) = keysOf l := by
  induction l with
  | nil => rfl
  | cons a t ih =>
    simp only [List.map_cons, keysOf, List.map_cons] at *
    rw [ih]

theorem keysOf_insertA (l : List (Nat × ValidatedTransaction)) (k : Nat)
    (v : ValidatedTransaction) :
    keysOf (insertA l k v) = if k ∈ keysOf l then keysOf l else keysOf l ++ [k] := by
  unfold insertA
  by_cases h : k ∈ keysOf l
  · rw [if_pos h, if_pos h, keysOf_replace_map]
  · rw [if_neg h, if_neg h]
    simp [keysOf]

theorem mem_keysOf_insertA_self (l : List (Nat × ValidatedTransaction)) (k : Nat)
    (v : ValidatedTransaction) : k ∈ keysOf (insertA l k v) := by
  rw [keysOf_insertA]
  by_cases h : k ∈ keysOf l <;> simp [h]

theorem mem_keysOf_insertA_of_mem (l : List (Nat × ValidatedTransaction)) (k : Nat)
    (v : ValidatedTransaction) {h : Nat} (hm : h ∈ keysOf l) :
    h ∈ keysOf (insertA l k v) := by
  rw [keysOf_insertA]
  by_cases hk : k ∈ keysOf l <;> simp [hk, hm]

theorem not_mem_keysOf_insertA (l : List (Nat × ValidatedTransaction)) (k : Nat)
    (v : ValidatedTransaction) {h : Nat} (hne : h ≠ k) (hm : h ∉ keysOf l) :
    h ∉ keysOf (insertA l k v) := by
  rw [keysOf_insertA]
  by_cases hk : k ∈ keysOf l <;> simp [hk, hm, hne]

theorem lookupA_replace_map_self (l : List (Nat × ValidatedTransaction)) (k : Nat)
    (v : ValidatedTransaction) (hk : k ∈ keysOf l) :
    lookupA (l.map (fun p => (p.1, if p.1 = k then v else p.2))) k = some v := by
  induction l with
  | nil => simp [keysOf] at hk
  | cons a t ih =>
    simp only [List.map_cons, lookupA]
    by_cases h : a.1 = k
    · simp [h]
    · have hk' : k ∈ keysOf t := by
        simp only [keysOf, List.map_cons, List.mem_cons] at hk
        exact hk.resolve_left (fun he => h he.symm)
      simp [h, ih hk']

theorem lookupA_append_of_not_mem (l l2 : List (Nat × ValidatedTransaction)) (k : Nat)
    (hk : k ∉ keysOf l) :
    lookupA (l ++ l2) k = lookupA l2 k := by
  induction l with
  | nil => rfl
  | cons a t ih =>
    have ha : a.1 ≠ k := by
      intro he
      exact hk (by simp [keysOf, he])
    have ht : k ∉ keysOf t := fun hm => hk (by simp [keysOf] at hm ⊢; exact Or.inr hm)
    simp [lookupA, ha, ih ht]

theorem lookupA_insertA_self (l : List (Nat × ValidatedTransaction)) (k : Nat)
    (v : ValidatedTransaction) : lookupA (insertA l k v) k = some v := by
  unfold insertA
  by_cases hk : k ∈ keysOf l
  · simp [hk, lookupA_replace_map_self l k v hk]
  · simp [hk, lookupA_append_of_not_mem l _ k hk, lookupA]

theorem lookupA_replace_map_ne (l : List (Nat × ValidatedTransaction)) (k : Nat)
    (v : ValidatedTransaction) {h : Nat} (hne : k ≠ h) :
    lookupA (l.map (fun p => (p.1, if p.1 = k then v else p.2))) h = lookupA l h := by
  induction l with
  | nil => rfl
  | cons a t ih =>
    simp only [List.map_cons, lookupA]
    by_cases hah : a.1 = h
    · have ha : ¬ a.1 = k := fun he => hne (he.symm.trans hah)
      have hne' : ¬ h = k := fun he => hne he.symm
      simp [hah, ha, hne']
    · simp [hah, ih]

theorem lookupA_append_single_ne (l : List (Nat × ValidatedTransaction)) (k : Nat)
    (v : ValidatedTransaction) {h : Nat} (hne : k ≠ h) :
    lookupA (l ++ [(k, v)]) h = lookupA l h := by
  induction l with
  | nil => simp [lookupA, hne]
  | cons a t ih =>
    simp only [List.cons_append, lookupA]
    by_cases hah : a.1 = h
    · simp [hah]
    · simp [hah, ih]

theorem lookupA_insertA_ne (l : List (Nat × ValidatedTransaction)) (k : Nat)
    (v : ValidatedTransaction) {h : Nat} (hne : k ≠ h) :
    lookupA (insertA l k v) h = lookupA l h := by
  unfold insertA
  by_cases hk : k ∈ keysOf l
  · rw [if_pos hk, lookupA_replace_map_ne l k v hne]
  · rw [if_neg hk, lookupA_append_single_ne l k v hne]

theorem mem_keysOf_foldl_insertA_of_mem_keys
    (kvs : List (Nat × ValidatedTransaction)) (m : List (Nat × ValidatedTransaction))
    {h : Nat} (hm : h ∈ keysOf m) :
    h ∈ keysOf (kvs.foldl (fun acc kv => insertA acc kv.1 kv.2) m) := by
  induction kvs generalizing m with
  | nil => exact hm
  | cons a t ih => exact ih _ (mem_keysOf_insertA_of_mem m a.1 a.2 hm)

theorem mem_keysOf_foldl_insertA_of_mem
    (kvs : List (Nat × ValidatedTransaction)) (m : List (Nat × ValidatedTransaction))
    {kv : Nat × ValidatedTransaction} (hkv : kv ∈ kvs) :
    kv.1 ∈ keysOf (kvs.foldl (fun acc kv => insertA acc kv.1 kv.2) m) := by
  induction kvs generalizing m with
  | nil => cases hkv
  | cons a t ih =>
    cases List.mem_cons.mp hkv with
    | inl he =>
      subst he
      exact mem_keysOf_foldl_insertA_of_mem_keys t _ (mem_keysOf_insertA_self m kv.1 kv.2)
    | inr hm => exact ih (insertA m a.1 a.2) hm

theorem not_mem_keysOf_foldl_insertA
    (kvs : List (Nat × ValidatedTransaction)) (m : List (Nat × ValidatedTransaction))
    {h : Nat} (hm : h ∉ keysOf m) (hk : ∀ kv ∈ kvs, kv.1 ≠ h) :
    h ∉ keysOf (kvs.foldl (fun acc kv => insertA acc kv.1 kv.2) m) := by
  induction kvs generalizing m with
  | nil => exact hm
  | cons a t ih =>
    exact ih (insertA m a.1 a.2)
      (not_mem_keysOf_insertA m a.1 a.2
        (fun he => hk a (List.mem_cons_self a t) he.symm) hm)
      (fun kv hkv => hk kv (List.mem_cons_of_mem a hkv))

theorem lookupA_foldl_insertA_of_ne
    (kvs : List (Nat × ValidatedTransaction)) (m : List (Nat × ValidatedTransaction))
    (h : Nat) (hk : ∀ kv ∈ kvs, kv.1 ≠ h) :
    lookupA (kvs.foldl (fun acc kv => insertA acc kv.1 kv.2) m) h = lookupA m h := by
  induction kvs generalizing m with
  | nil => rfl
  | cons a t ih =>
    rw [List.foldl_cons, ih (insertA m a.1 a.2) (fun kv hkv => hk kv (List.mem_cons_of_mem a hkv)),
      lookupA_insertA_ne m a.1 a.2 (hk a (List.mem_cons_self a t))]

/-! ### Characterizing the classification loop of `revalidate` -/

theorem classify_foldl_eq (api : ChainApi) (atN : Nat)
    (rs : List (ValidationOutcome × Nat × ReadyTx)) :
    ∀ acc, rs.foldl (classifyStep api atN) acc =
      (acc.1 ++ rs.filterMap invalidSel,
       (rs.filterMap (okEntry api atN)).foldl (fun m kv => insertA m kv.1 kv.2) acc.2) := by
  induction rs with
  | nil => intro acc; simp
  | cons e t ih =>
    intro acc
    obtain ⟨res, h, tx⟩ := e
    rcases res with e' | vr
    · simp [classifyStep, invalidSel, okEntry, ih, List.filterMap_cons]
    · rcases vr with tve | vv
      · rcases tve with i | u <;>
          simp [classifyStep, invalidSel, okEntry, ih, List.filterMap_cons]
      · simp [classifyStep, invalidSel, okEntry, ih, List.filterMap_cons]

theorem classifyResults_eq (api : ChainApi) (atN : Nat)
    (rs : List (ValidationOutcome × Nat × ReadyTx)) :
    classifyResults api atN rs =
      (rs.filterMap invalidSel,
       (rs.filterMap (okEntry api atN)).foldl (fun m kv => insertA m kv.1 kv.2) []) := by
  have := classify_foldl_eq api atN rs ([], [])
  simpa [classifyResults] using this

theorem invalidSel_some_key {e : ValidationOutcome × Nat × ReadyTx} {h : Nat}
    (he : invalidSel e = some h) : e.2.1 = h := by
  obtain ⟨res, hh, tx⟩ := e
  rcases res with e' | vr
  · simpa [invalidSel] using he
  · rcases vr with tve | vv
    · rcases tve with i | u <;> simpa [invalidSel] using he
    · simp [invalidSel] at he

theorem okKeySel_some_key {e : ValidationOutcome × Nat × ReadyTx} {h : Nat}
    (he : okKeySel e = some h) : e.2.1 = h := by
  obtain ⟨res, hh, tx⟩ := e
  rcases res with e' | vr
  · simp [okKeySel] at he
  · rcases vr with tve | vv
    · rcases tve with i | u <;> simp [okKeySel] at he
    · simpa [okKeySel] using he

theorem map_fst_filterMap_okEntry (api : ChainApi) (atN : Nat)
    (rs : List (ValidationOutcome × Nat × ReadyTx)) :
    (rs.filterMap (okEntry api atN)).map Prod.fst = rs.filterMap okKeySel := by
  induction rs with
  | nil => rfl
  | cons e t ih =>
    obtain ⟨res, hh, tx⟩ := e
    rcases res with e' | vr
    · simp [okEntry, okKeySel, List.filterMap_cons, ih]
    · rcases vr with tve | vv
      · rcases tve with i | u <;> simp [okEntry, okKeySel, List.filterMap_cons, ih]
      · simp [okEntry, okKeySel, List.filterMap_cons, ih]

/-- A hash that no confirmed entry carries is absent from the classified
`revalidated` map. -/
theorem not_mem_keys_classify_snd (api : ChainApi) (atN : Nat)
    (rs : List (ValidationOutcome × Nat × ReadyTx)) {h : Nat}
    (hna : h ∉ rs.filterMap okKeySel) :
    h ∉ keysOf (classifyResults api atN rs).2 := by
  rw [classifyResults_eq]
  refine not_mem_keysOf_foldl_insertA _ [] (by simp [keysOf]) ?_
  intro kv hkv hkvh
  apply hna
  have hm : kv.1 ∈ (rs.filterMap (okEntry api atN)).map Prod.fst :=
    List.mem_map_of_mem Prod.fst hkv
  rw [map_fst_filterMap_okEntry] at hm
  exact hkvh ▸ hm

/-- Every hash in the classified `invalid_hashes` is the hash of some recorded
outcome. -/
theorem mem_classify_fst_source (api : ChainApi) (atN : Nat)
    (rs : List (ValidationOutcome × Nat × ReadyTx)) {h : Nat}
    (hm : h ∈ (classifyResults api atN rs).1) :
    ∃ e ∈ rs, e.2.1 = h := by
  rw [classifyResults_eq] at hm
  obtain ⟨e, he, hee⟩ := List.mem_filterMap.mp hm
  exact ⟨e, he, invalidSel_some_key hee⟩

/-- Every key of the classified `revalidated` map is the hash of some recorded
outcome. -/
theorem mem_classify_snd_source (api : ChainApi) (atN : Nat)
    (rs : List (ValidationOutcome × Nat × ReadyTx)) {h : Nat}
    (hm : h ∈ keysOf (classifyResults api atN rs).2) :
    ∃ e ∈ rs, e.2.1 = h := by
  by_contra hc
  push_neg at hc
  refine not_mem_keys_classify_snd api atN rs ?_ hm
  intro hmm
  obtain ⟨e, he, hee⟩ := List.mem_filterMap.mp hmm
  exact hc e he (okKeySel_some_key hee)

/-- A recorded outcome that is not a confirmed verdict puts its hash into
`invalid_hashes`. -/
theorem mem_classify_fst_of_entry (api : ChainApi) (atN : Nat)
    (rs : List (ValidationOutcome × Nat × ReadyTx))
    {e : ValidationOutcome × Nat × ReadyTx} (he : e ∈ rs) {h : Nat}
    (hsel : invalidSel e = some h) :
    h ∈ (classifyResults api atN rs).1 := by
  rw [classifyResults_eq]
  exact List.mem_filterMap.mpr ⟨e, he, hsel⟩

/-- A confirmed outcome puts its hash among the keys of the `revalidated` map. -/
theorem mem_classify_snd_of_entry (api : ChainApi) (atN : Nat)
    (rs : List (ValidationOutcome × Nat × ReadyTx))
    {e : ValidationOutcome × Nat × ReadyTx} (he : e ∈ rs) {vv : ValidityVerdict}
    (hok : e.1 = .ok (.ok vv)) :
    e.2.1 ∈ keysOf (classifyResults api atN rs).2 := by
  rw [classifyResults_eq]
  have hmem : (e.2.1,
      ValidatedTransaction.valid_at atN e.2.1 e.2.2.source e.2.2.data
        (api.hash_and_length e.2.2.data).2 vv) ∈ rs.filterMap (okEntry api atN) :=
    List.mem_filterMap.mpr ⟨e, he, by simp [okEntry, hok]⟩
  exact mem_keysOf_foldl_insertA_of_mem _ [] hmem

/-- With pairwise-distinct hashes, a confirmed outcome's hash maps in the
classified `revalidated` map to exactly the record `valid_at` builds for it. -/
theorem lookupA_classify_snd (api : ChainApi) (atN : Nat)
    (rs : List (ValidationOutcome × Nat × ReadyTx))
    (hnd : (rs.map (fun e => e.2.1)).Nodup)
    {e : ValidationOutcome × Nat × ReadyTx} (he : e ∈ rs) {vv : ValidityVerdict}
    (hok : e.1 = .ok (.ok vv)) :
    lookupA (classifyResults api atN rs).2 e.2.1 =
      some (ValidatedTransaction.valid_at atN e.2.1 e.2.2.source e.2.2.data
        (api.hash_and_length e.2.2.data).2 vv) := by
  rw [classifyResults_eq]
  dsimp only
  obtain ⟨l1, l2, hsplit⟩ := List.append_of_mem he
  subst hsplit
  have hnd' := hnd
  rw [List.map_append, List.map_cons, List.nodup_append] at hnd'
  obtain ⟨hnd1, hnd2, hdisj⟩ := hnd'
  have hne1 : e.2.1 ∉ l1.map (fun e => e.2.1) := fun hm => hdisj hm (List.mem_cons_self _ _)
  have hne2 : e.2.1 ∉ l2.map (fun e => e.2.1) := (List.nodup_cons.mp hnd2).1
  rw [List.filterMap_append, List.filterMap_cons]
  have hoke : okEntry api atN e = some (e.2.1,
      ValidatedTransaction.valid_at atN e.2.1 e.2.2.source e.2.2.data
        (api.hash_and_length e.2.2.data).2 vv) := by simp [okEntry, hok]
  rw [hoke]
  rw [List.foldl_append, List.foldl_cons]
  have hk2 : ∀ kv ∈ l2.filterMap (okEntry api atN), kv.1 ≠ e.2.1 := by
    intro kv hkv hkeq
    apply hne2
    have hm : kv.1 ∈ (l2.filterMap (okEntry api atN)).map Prod.fst :=
      List.mem_map_of_mem Prod.fst hkv
    rw [map_fst_filterMap_okEntry] at hm
    obtain ⟨e2, he2, hee2⟩ := List.mem_filterMap.mp hm
    rw [← hkeq]
    exact List.mem_map.mpr ⟨e2, he2, okKeySel_some_key hee2⟩
  rw [lookupA_foldl_insertA_of_ne _ _ _ hk2, lookupA_insertA_self]

/-- With pairwise-distinct hashes, a confirmed outcome's hash never appears in
the classified `invalid_hashes`. -/
theorem not_mem_classify_fst (api : ChainApi) (atN : Nat)
    (rs : List (ValidationOutcome × Nat × ReadyTx))
    (hnd : (rs.map (fun e => e.2.1)).Nodup)
    {e : ValidationOutcome × Nat × ReadyTx} (he : e ∈ rs) {vv : ValidityVerdict}
    (hok : e.1 = .ok (.ok vv)) :
    e.2.1 ∉ (classifyResults api atN rs).1 := by
  intro hm
  rw [classifyResults_eq] at hm
  obtain ⟨e2, he2, hee2⟩ := List.mem_filterMap.mp hm
  have hkey : e2.2.1 = e.2.1 := invalidSel_some_key hee2
  have heq : e2 = e := List.inj_on_of_nodup_map hnd he2 he hkey
  subst heq
  rw [invalidSel, hok] at hee2
  simp at hee2

/-- With pairwise-distinct hashes, an outcome that is not a confirmed verdict
never appears among the keys of the classified `revalidated` map. -/
theorem not_mem_classify_snd (api : ChainApi) (atN : Nat)
    (rs : List (ValidationOutcome × Nat × ReadyTx))
    (hnd : (rs.map (fun e => e.2.1)).Nodup)
    {e : ValidationOutcome × Nat × ReadyTx} (he : e ∈ rs)
    (hnok : invalidSel e = some e.2.1) :
    e.2.1 ∉ keysOf (classifyResults api atN rs).2 := by
  refine not_mem_keys_classify_snd api atN rs ?_
  intro hm
  obtain ⟨e2, he2, hee2⟩ := List.mem_filterMap.mp hm
  have hkey : e2.2.1 = e.2.1 := okKeySel_some_key hee2
  have heq : e2 = e := List.inj_on_of_nodup_map hnd he2 he hkey
  subst heq
  obtain ⟨res, hh, tx⟩ := e2
  rcases res with e' | vr
  · simp [okKeySel] at hee2
  · rcases vr with tve | vv
    · rcases tve with i | u <;> simp [okKeySel] at hee2
    · simp [invalidSel] at hnok

/-! ### Further store and finish-revalidation lemmas -/

theorem finish_revalidation_of_none {v : View}
    (h : v.revalidation_worker_channels = none) : v.finish_revalidation = v := by
  unfold View.finish_revalidation
  rw [h]

theorem finish_revalidation_channels_none (v : View) :
    (v.finish_revalidation).revalidation_worker_channels = none := by
  unfold View.finish_revalidation
  cases hch : v.revalidation_worker_channels with
  | none => exact hch
  | some ch => cases hrx : ch.revalidation_result_rx <;> simp [hrx]

theorem not_mem_keysOf_remove_invalid (s : Store) (hashes : List Nat) {h : Nat}
    (hh : h ∈ hashes) : h ∉ keysOf (s.remove_invalid hashes).entries := by
  intro hm
  unfold Store.remove_invalid keysOf at hm
  obtain ⟨p, hp, hph⟩ := List.mem_map.mp hm
  have hnp := List.of_mem_filter hp
  simp only [decide_eq_true_eq] at hnp
  exact hnp (hph ▸ hh)

theorem lookupA_foldl_insertA_of_mem
    (kvs : List (Nat × ValidatedTransaction)) (m : List (Nat × ValidatedTransaction))
    (hnd : (keysOf kvs).Nodup) {kv : Nat × ValidatedTransaction} (hkv : kv ∈ kvs) :
    lookupA (kvs.foldl (fun acc kv => insertA acc kv.1 kv.2) m) kv.1 = some kv.2 := by
  obtain ⟨l1, l2, hsplit⟩ := List.append_of_mem hkv
  subst hsplit
  have hnd' := hnd
  rw [keysOf, List.map_append, List.map_cons, List.nodup_append] at hnd'
  obtain ⟨hnd1, hnd2, hdisj⟩ := hnd'
  have hne2 : kv.1 ∉ l2.map Prod.fst := (List.nodup_cons.mp hnd2).1
  rw [List.foldl_append, List.foldl_cons]
  have hk2 : ∀ p ∈ l2, p.1 ≠ kv.1 := by
    intro p hp hpe
    exact hne2 (hpe ▸ List.mem_map_of_mem Prod.fst hp)
  rw [lookupA_foldl_insertA_of_ne _ _ _ hk2, lookupA_insertA_self]


/-! ### Claims -/

/-- Claim C2: `finish_revalidation` is idempotent.  On a view with no registered
revalidation channels (the Idle state) it returns without modifying the store or
any other view state; every call leaves the channel slot empty, so a second
consecutive call is always such a no-op. -/
theorem C2_finish_revalidation_idempotent (v : View) :
    View.finish_revalidation { v with revalidation_worker_channels := none } =
      { v with revalidation_worker_channels := none } ∧
    (v.finish_revalidation).revalidation_worker_channels = none ∧
    (v.finish_revalidation).finish_revalidation = v.finish_revalidation :=
  ⟨finish_revalidation_of_none rfl,
   finish_revalidation_channels_none v,
   finish_revalidation_of_none (finish_revalidation_channels_none v)⟩

/-- Claim C10: `submit_many` produces the same result sequence whether or not
TRACE-level logging is enabled: both branches hand the same chain position and
the same pairs in the same order to the store's `submit_at`; the trace branch
only additionally computes hashes for the log line. -/
theorem C10_submit_many_trace_independent (submitAt : SubmitAtFn) (api : ChainApi)
    (v : View) (xts : List (TimedTransactionSource × Extrinsic)) :
    View.submit_many submitAt true api v xts = View.submit_many submitAt false api v xts := rfl

/-- Claim C3: every revalidation run sends exactly one `RevalidationResult` on
the result channel, whether the loop ended by batch exhaustion or by a
cancellation signal; a send failure (closed receiver) changes nothing except the
send flag — the message content and the view state left behind are identical —
and `revalidate`, being a total function, terminates normally in every case. -/
theorem C3_revalidate_sends_exactly_one (api : ChainApi) (v : View)
    (ch : FinishRevalidationWorkerChannels) :
    (View.revalidate api v ch).sent.length = 1 ∧
    (View.revalidate api v ch).sent =
      (View.revalidate api v { ch with revalidation_result_tx := true }).sent ∧
    (View.revalidate api v ch).view =
      (View.revalidate api v { ch with revalidation_result_tx := true }).view :=
  ⟨rfl, rfl, rfl⟩

/-- Claim C5 (amended): `submit_one` submits the one-element batch through
`submit_many` and takes the last result (`Vec::pop`); it fails fatally (`none`,
modelling the `.expect` panic) exactly when `submit_many` produces zero results,
and when `submit_many` produces exactly one result it returns that result. -/
theorem C5_submit_one_of_submit_many (submitAt : SubmitAtFn) (traceEnabled : Bool)
    (api : ChainApi) (v : View) (source : TimedTransactionSource) (xt : Extrinsic) :
    (View.submit_many submitAt traceEnabled api v [(source, xt)] = [] →
      View.submit_one submitAt traceEnabled api v source xt = none) ∧
    (∀ r, View.submit_many submitAt traceEnabled api v [(source, xt)] = [r] →
      View.submit_one submitAt traceEnabled api v source xt = some r) := by
  constructor
  · intro h
    unfold View.submit_one
    rw [h]
    rfl
  · intro r h
    unfold View.submit_one
    rw [h]
    rfl

theorem C5_witness :
    View.submit_many submitAtOne false apiW viewW [(srcW, 0)] = [Except.ok 7] ∧
    View.submit_one submitAtOne false apiW viewW srcW 0 = some (Except.ok 7) :=
  ⟨rfl, (C5_submit_one_of_submit_many submitAtOne false apiW viewW srcW 0).2
    (Except.ok 7) rfl⟩

/-- Claim C5, counterexample: when the store's submission path produces two
results for the one-element input, `submit_one` does not fail fatally: `.pop()`
silently returns the last of the two results, contradicting the claimed panic on
more than one result. -/
theorem C5_counterexample :
    (View.submit_many submitAtTwo false apiW viewW [(srcW, 0)]).length = 2 ∧
    View.submit_one submitAtTwo false apiW viewW srcW 0 = some (Except.ok 20) :=
  ⟨rfl, rfl⟩

/-- Claim C7: at the failing input — hash 7 banned but not imported —
`is_imported` returns `true`, because the source passes the constant
`IGNORE_BANNED = false` into `check_is_known`, so the banned marking is NOT
ignored; the claim (and the function's own doc comment, "true if the transaction
is already imported") requires `false` here.  The spec-side predicate
(hash known with banned markings ignored) disagrees with the code at this
input. -/
theorem C7_is_imported_banned_divergence :
    View.is_imported viewC7 7 = true ∧
    Store.knownIgnoringBanned viewC7.pool 7 = false := by
  constructor <;> decide

/-- Claim C6, counterexample: with an unresolvable block hash but a validation
call that fails first, `submit_local` returns the propagated oracle error, not
an `InvalidBlockId`-class error — the unresolvable hash is never consulted. -/
theorem C6_counterexample :
    apiC6.block_id_to_number viewW.at_.hash = Except.ok none ∧
    (View.submit_local apiC6 viewW 0).1 = Except.error (TxPoolError.api 5) ∧
    TxPoolError.isInvalidBlockId (TxPoolError.api 5) = false :=
  ⟨rfl, rfl, rfl⟩

/-- Claim C6 (amended): when the view's block hash cannot be resolved to a block
number, `submit_local` performs no store mutation; and if additionally the
validation steps preceding block resolution succeed, it returns the
`InvalidBlockId`-class error. -/
theorem C6_submit_local_unresolvable (api : ChainApi) (v : View) (xt : Extrinsic)
    (hun : api.block_id_to_number v.at_.hash = .ok none) :
    (∀ vv, api.validate_transaction_blocking v.at_.hash .Local xt = .ok (.ok vv) →
      (View.submit_local api v xt).1 = .error (.invalidBlockId v.at_.hash)) ∧
    (View.submit_local api v xt).2 = v.pool := by
  constructor
  · intro vv hval
    simp only [View.submit_local, hval, hun]
  · cases hval : api.validate_transaction_blocking v.at_.hash .Local xt with
    | error e => simp [View.submit_local, hval]
    | ok x =>
      cases x with
      | error tve => cases tve <;> simp [View.submit_local, hval]
      | ok vv => simp [View.submit_local, hval, hun]

theorem C6_witness :
    apiC6w.block_id_to_number viewW.at_.hash = Except.ok none ∧
    ((∀ vv, apiC6w.validate_transaction_blocking viewW.at_.hash .Local 0 = .ok (.ok vv) →
        (View.submit_local apiC6w viewW 0).1 = .error (.invalidBlockId viewW.at_.hash)) ∧
      (View.submit_local apiC6w viewW 0).2 = viewW.pool) :=
  ⟨rfl, C6_submit_local_unresolvable apiC6w viewW 0 rfl⟩

/-! ### Heap lemmas for the cloning claim -/

theorem heapGet_append_lt (l1 l2 : List Store) (i : Nat) (h : i < l1.length) :
    heapGet (l1 ++ l2) i = heapGet l1 i := by
  induction l1 generalizing i with
  | nil => cases h
  | cons a t ih =>
    cases i with
    | zero => rfl
    | succ n =>
      simp only [heapGet, List.cons_append, List.getD_cons_succ] at *
      exact ih n (Nat.lt_of_succ_lt_succ h)

theorem heapGet_append_self (l1 : List Store) (x : Store) :
    heapGet (l1 ++ [x]) l1.length = x := by
  induction l1 with
  | nil => rfl
  | cons a t ih =>
    simp only [heapGet, List.cons_append, List.length_cons, List.getD_cons_succ] at *
    exact ih

theorem heapGet_set_ne (l : List Store) (i j : Nat) (x : Store) (h : i ≠ j) :
    heapGet (l.set i x) j = heapGet l j := by
  induction l generalizing i j with
  | nil => rfl
  | cons a t ih =>
    cases i with
    | zero =>
      cases j with
      | zero => exact absurd rfl h
      | succ m => rfl
    | succ n =>
      cases j with
      | zero => rfl
      | succ m =>
        simp only [heapGet, List.set_cons_succ, List.getD_cons_succ] at *
        exact ih n m (fun he => h (congrArg Nat.succ he))

/-- Claim C8: `new_from_other` produces a view bound to the new chain position
whose store is a deep clone sharing no mutable state with the original
(insertions into either slot do not affect the other), whose revalidation
channels start absent, and whose metrics handle is shared, not duplicated. -/
theorem C8_new_from_other_spec (heap : List Store) (v : ViewRef) (a : HashAndNumber)
    (href : v.poolRef < heap.length) : cloneSpecHolds heap v a := by
  unfold cloneSpecHolds ViewRef.new_from_other heapDeepClone
  dsimp only
  refine ⟨rfl, rfl, rfl, (Nat.ne_of_lt href).symm, heapGet_append_self heap _, ?_, ?_⟩
  · intro f
    unfold heapUpdate
    rw [heapGet_set_ne _ _ _ _ (Nat.ne_of_lt href).symm]
    exact heapGet_append_lt heap _ v.poolRef href
  · intro f
    unfold heapUpdate
    rw [heapGet_set_ne _ _ _ _ (Nat.ne_of_lt href)]
    exact heapGet_append_self heap _

theorem C8_witness :
    viewR8.poolRef < ([emptyStore] : List Store).length ∧
    cloneSpecHolds [emptyStore] viewR8 ⟨2, 2⟩ :=
  ⟨by decide, C8_new_from_other_spec [emptyStore] viewR8 ⟨2, 2⟩ (by decide)⟩

theorem finish_revalidation_some_none {v : View} {ch : FinishRevalidationLocalChannels}
    (hch : v.revalidation_worker_channels = some ch)
    (hrx : ch.revalidation_result_rx = none) :
    v.finish_revalidation = { v with revalidation_worker_channels := none } := by
  unfold View.finish_revalidation
  rw [hch]
  simp [hrx]

theorem finish_revalidation_some_some {v : View} {ch : FinishRevalidationLocalChannels}
    {r : RevalidationResult}
    (hch : v.revalidation_worker_channels = some ch)
    (hrx : ch.revalidation_result_rx = some r) :
    v.finish_revalidation =
      { v with
        revalidation_worker_channels := none,
        pool := if 0 < r.revalidated.length
          then (v.pool.remove_invalid r.invalid_hashes).resubmit r.revalidated
          else v.pool.remove_invalid r.invalid_hashes } := by
  unfold View.finish_revalidation
  rw [hch]
  simp [hrx]

/-- Claim C1: for every revalidation run whose `RevalidationResult` reaches
`finish_revalidation`, the result is applied to the store — every hash in
`invalid_hashes` is removed and every transaction of the `revalidated` map is
resubmitted as an already-validated entry — and if the run sent no result, the
store is left unchanged. -/
theorem C1_finish_revalidation_applies (v : View) (ch : FinishRevalidationLocalChannels)
    (hch : v.revalidation_worker_channels = some ch) : C1Applied v ch := by
  constructor
  · intro hrx
    exact finish_revalidation_some_none hch hrx
  · intro r hrx
    have hpool : (v.finish_revalidation).pool =
        (if 0 < r.revalidated.length
          then (v.pool.remove_invalid r.invalid_hashes).resubmit r.revalidated
          else v.pool.remove_invalid r.invalid_hashes) := by
      rw [finish_revalidation_some_some hch hrx]
    refine ⟨hpool, ?_, ?_, ?_⟩
    · intro h hh hnk
      rw [hpool]
      by_cases hlen : 0 < r.revalidated.length
      · rw [if_pos hlen]
        refine not_mem_keysOf_foldl_insertA _ _
          (not_mem_keysOf_remove_invalid v.pool r.invalid_hashes hh) ?_
        intro kv hkv hke
        exact hnk (hke ▸ List.mem_map_of_mem Prod.fst hkv)
      · rw [if_neg hlen]
        exact not_mem_keysOf_remove_invalid v.pool r.invalid_hashes hh
    · intro kv hkv
      rw [hpool]
      have hlen : 0 < r.revalidated.length :=
        List.length_pos.mpr (List.ne_nil_of_mem hkv)
      rw [if_pos hlen]
      exact mem_keysOf_foldl_insertA_of_mem _ _ hkv
    · intro hnd kv hkv
      rw [hpool]
      have hlen : 0 < r.revalidated.length :=
        List.length_pos.mpr (List.ne_nil_of_mem hkv)
      rw [if_pos hlen]
      exact lookupA_foldl_insertA_of_mem _ _ hnd hkv

theorem C1_witness :
    viewC1.revalidation_worker_channels = some chW ∧ C1Applied viewC1 chW :=
  ⟨rfl, C1_finish_revalidation_applies viewC1 chW rfl⟩

/-- Claim C4: every transaction outcome recorded by `revalidate` is classified
into exactly one of the two collections of the emitted result: invalid,
unknown-validity and oracle-error outcomes go to `invalid_hashes`; a confirmed
outcome is inserted into the `revalidated` map under the transaction's hash as
the record built from this view's block number, the original source and body,
and the fresh verdict. -/
theorem C4_revalidate_classification (api : ChainApi) (v : View)
    (ch : FinishRevalidationWorkerChannels)
    (hnd : ((recordedResults api v ch).map (fun e => e.2.1)).Nodup)
    {e : ValidationOutcome × Nat × ReadyTx} (he : e ∈ recordedResults api v ch)
    {r : RevalidationResult} (hr : (View.revalidate api v ch).sent = [r]) :
    C4Prop api v e r := by
  have hX : ({ revalidated := (classifyResults api v.at_.number (recordedResults api v ch)).2,
               invalid_hashes :=
                 (classifyResults api v.at_.number (recordedResults api v ch)).1 } :
      RevalidationResult) = r := by
    simpa [View.revalidate] using hr
  subst hX
  unfold C4Prop
  obtain ⟨res, h, tx⟩ := e
  rcases res with e' | vr
  · exact ⟨mem_classify_fst_of_entry api _ _ he (by simp [invalidSel]),
           not_mem_classify_snd api _ _ hnd he (by simp [invalidSel])⟩
  · rcases vr with tve | vv
    · rcases tve with i | u
      · exact ⟨mem_classify_fst_of_entry api _ _ he (by simp [invalidSel]),
               not_mem_classify_snd api _ _ hnd he (by simp [invalidSel])⟩
      · exact ⟨mem_classify_fst_of_entry api _ _ he (by simp [invalidSel]),
               not_mem_classify_snd api _ _ hnd he (by simp [invalidSel])⟩
    · exact ⟨not_mem_classify_fst api _ _ hnd he rfl,
             lookupA_classify_snd api _ _ hnd he rfl⟩

theorem C4_witness :
    ((recordedResults apiC4 viewC4 chC4).map (fun e => e.2.1)).Nodup ∧
    eC4 ∈ recordedResults apiC4 viewC4 chC4 ∧
    (View.revalidate apiC4 viewC4 chC4).sent = [rC4] ∧
    C4Prop apiC4 viewC4 eC4 rC4 :=
  ⟨by decide, by decide, by decide,
   C4_revalidate_classification apiC4 viewC4 chC4 (by decide) (by decide) (by decide)⟩

/-- Claim C9: a cancellation that terminates the `revalidate` loop before the
batch is exhausted still yields a `RevalidationResult` covering every
transaction whose oracle validation completed before the signal arrived; only
the not-yet-validated transactions are discarded, and `finish_revalidation`
applies these partial results rather than leaving the store unchanged. -/
theorem C9_cancelled_partial_results (api : ChainApi) (v : View) (k : Nat) (b : Bool)
    (hk : k < v.pool.ready.length)
    (hnd : (v.pool.ready.map ReadyTx.hash).Nodup) :
    C9Prop api v k b := by
  have hrs : recordedResults api v ⟨some k, b⟩ =
      (v.pool.ready.take k).map
        (fun tx => (api.validate_transaction v.at_.hash tx.source.toSource tx.data,
          tx.hash, tx)) := by
    unfold recordedResults
    dsimp only
    rw [Nat.min_eq_left hk.le]
  have hndsplit : ((v.pool.ready.take k).map ReadyTx.hash ++
      (v.pool.ready.drop k).map ReadyTx.hash).Nodup := by
    rw [← List.map_append, List.take_append_drop]
    exact hnd
  rw [List.nodup_append] at hndsplit
  obtain ⟨hnd1, hnd2, hdisj⟩ := hndsplit
  refine ⟨⟨(classifyResults api v.at_.number (recordedResults api v ⟨some k, b⟩)).2,
           (classifyResults api v.at_.number (recordedResults api v ⟨some k, b⟩)).1⟩,
    rfl, ?_, ?_, ?_⟩
  · intro tx htx
    have he : (api.validate_transaction v.at_.hash tx.source.toSource tx.data,
        tx.hash, tx) ∈ recordedResults api v ⟨some k, b⟩ := by
      rw [hrs]
      exact List.mem_map_of_mem _ htx
    rcases hoc : api.validate_transaction v.at_.hash tx.source.toSource tx.data with e' | vr
    · exact Or.inl (mem_classify_fst_of_entry api _ _ he (by simp [invalidSel, hoc]))
    · rcases vr with tve | vv
      · rcases tve with i | u
        · exact Or.inl (mem_classify_fst_of_entry api _ _ he (by simp [invalidSel, hoc]))
        · exact Or.inl (mem_classify_fst_of_entry api _ _ he (by simp [invalidSel, hoc]))
      · exact Or.inr (mem_classify_snd_of_entry api _ _ he hoc)
  · intro tx htx
    constructor
    · intro hmem
      obtain ⟨e', he', hehash⟩ := mem_classify_fst_source api _ _ hmem
      rw [hrs] at he'
      obtain ⟨tx', htx', hfe⟩ := List.mem_map.mp he'
      have hh : tx'.hash = tx.hash := by rw [← hehash, ← hfe]
      exact hdisj (hh ▸ List.mem_map_of_mem ReadyTx.hash htx')
        (List.mem_map_of_mem ReadyTx.hash htx)
    · intro hmem
      obtain ⟨e', he', hehash⟩ := mem_classify_snd_source api _ _ hmem
      rw [hrs] at he'
      obtain ⟨tx', htx', hfe⟩ := List.mem_map.mp he'
      have hh : tx'.hash = tx.hash := by rw [← hehash, ← hfe]
      exact hdisj (hh ▸ List.mem_map_of_mem ReadyTx.hash htx')
        (List.mem_map_of_mem ReadyTx.hash htx)
  · rw [finish_revalidation_some_some rfl rfl]

theorem C9_witness :
    2 < viewC9.pool.ready.length ∧
    (viewC9.pool.ready.map ReadyTx.hash).Nodup ∧
    C9Prop apiC4 viewC9 2 false :=
  ⟨by decide, by decide,
   C9_cancelled_partial_results apiC4 viewC9 2 false (by decide) (by decide)⟩

